import Mathlib

/-!
Shallow embedding of `src/honeypot.py` (a deceptive shell / honeypot service)
and proofs about its specification claims.

Strings are modelled by Lean `String` (a wrapper around `List Char`), and the
Python string primitives used by the source (`str.strip`, `str.lower`,
`str.startswith`, `str.endswith`, `str.split`, `posixpath.normpath`,
`posixpath.join`) are embedded as executable functions over character lists.
-/

namespace Honeypot

/-- Whitespace characters recognized by Python `str.strip()` / `str.split()`
(ASCII portion, which is all the honeypot protocol can meet after decoding). -/
def isPySpace (c : Char) : Bool :=
  c = ' ' || c = '\t' || c = '\n' || c = '\r' || c = '\x0b' || c = '\x0c'

/-- Python `str.strip()`: drop leading and trailing whitespace. -/
def pyStrip (s : String) : String :=
  String.mk (((s.data.dropWhile isPySpace).reverse.dropWhile isPySpace).reverse)

/-- Python `str.lower()` (ASCII case folding, as used on command verbs). -/
def pyLower (s : String) : String :=
  String.mk (s.data.map Char.toLower)

/-- Python `s.startswith(p)`. -/
def pyStartsWith (s p : String) : Bool :=
  p.data.isPrefixOf s.data

/-- Python `s.endswith(p)`. -/
def pyEndsWith (s p : String) : Bool :=
  p.data.isSuffixOf s.data

/-- Helper for `splitSlash`: prepend a character to the first piece. -/
def consHead (c : Char) : List (List Char) → List (List Char)
  | [] => [[c]]
  | s :: ss => (c :: s) :: ss

/-- Python `path.split('/')` on character lists (keeps empty pieces). -/
def splitSlash : List Char → List (List Char)
  | [] => [[]]
  | c :: cs => if c = '/' then [] :: splitSlash cs else consHead c (splitSlash cs)

/-- Python `'/'.join(pieces)` on character lists. -/
def joinSlash : List (List Char) → List Char
  | [] => []
  | [s] => s
  | s :: t :: ss => s ++ '/' :: joinSlash (t :: ss)

/-- The `initial_slashes` computation of `posixpath.normpath`: POSIX keeps a
double (but not triple or more) leading slash. -/
def initialSlashes (cs : List Char) : Nat :=
  if ['/'].isPrefixOf cs then
    if ['/', '/'].isPrefixOf cs ∧ ¬ (['/', '/', '/'].isPrefixOf cs) then 2 else 1
  else 0

/-- One step of the component loop of `posixpath.normpath`: skip empty and `.`
components, resolve `..` by popping (clamped at the root when the path is
absolute). -/
def normStep (k : Nat) (acc : List (List Char)) (comp : List Char) : List (List Char) :=
  if comp = [] ∨ comp = ['.'] then acc
  else if comp ≠ ['.', '.'] ∨ (k = 0 ∧ acc = []) ∨ (acc ≠ [] ∧ acc.getLast? = some ['.', '.']) then
    acc ++ [comp]
  else if acc ≠ [] then acc.dropLast
  else acc

/-- `posixpath.normpath` on character lists. -/
def normpathChars (cs : List Char) : List Char :=
  if cs = [] then ['.']
  else
    let k := initialSlashes cs
    let newComps := (splitSlash cs).foldl (normStep k) []
    let p := List.replicate k '/' ++ joinSlash newComps
    if p = [] then ['.'] else p

/-- `posixpath.normpath` (source line 144). -/
def normpath (s : String) : String :=
  String.mk (normpathChars s.data)

/-- The second `if` of `normalize_dir` (source lines 147-148): append a
trailing slash unless the path is the bare root or already ends in one. -/
def ensure_trailing_slash (s : String) : String :=
  if s ≠ "/" ∧ pyEndsWith s "/" = false then s ++ "/" else s

/-- `normalize_dir` (source lines 137-149): normalize and ensure a trailing
slash unless the result is the bare root. -/
def normalize_dir (path : String) : String :=
  if path = "" then "/"
  else ensure_trailing_slash (if normpath path = "." then "/" else normpath path)

/-- `posixpath.join` restricted to two arguments, as called by the source. -/
def posixJoin (a b : String) : String :=
  if pyStartsWith b "/" = true then b
  else if a = "" ∨ pyEndsWith a "/" = true then a ++ b
  else a ++ "/" ++ b

/-- The target-resolution logic of `update_state` (source lines 159-167):
empty or `~` targets go to `/`, absolute targets are normalized on their own,
relative targets are joined to the current directory first. -/
def cd_resolve (current_dir target : String) : String :=
  if target = "" ∨ target = "~" then "/"
  else if pyStartsWith target "/" = true then normalize_dir target
  else normalize_dir (posixJoin current_dir target)

/-- Python `cmd.split(maxsplit=1)`: first whitespace-delimited token, then the
raw remainder after the separating whitespace run. -/
def pySplitMax1 (s : String) : List String :=
  let cs := s.data.dropWhile isPySpace
  if cs = [] then []
  else
    let tok := cs.takeWhile (fun c => !isPySpace c)
    let rest := (cs.dropWhile (fun c => !isPySpace c)).dropWhile isPySpace
    if rest = [] then [String.mk tok] else [String.mk tok, String.mk rest]

/-- Python `cmd.split(" ", 1)`: split on the first literal space only. -/
def pySplitSpace1 (s : String) : List String :=
  let pre := s.data.takeWhile (fun c => !(c == ' '))
  match s.data.dropWhile (fun c => !(c == ' ')) with
  | [] => [String.mk pre]
  | _ :: rest => [String.mk pre, String.mk rest]

/-- `update_state` (source lines 152-168): update the directory for `cd`
commands (matched case-sensitively here), otherwise leave it unchanged. -/
def update_state (command current_dir : String) : String :=
  if pyStrip command = "cd" ∨ pyStartsWith (pyStrip command) "cd " = true then
    cd_resolve current_dir ((pySplitMax1 (pyStrip command)).getD 1 "")
  else current_dir

end Honeypot

namespace Honeypot

/-- The mutable per-connection state bag of the source (`session_state`). -/
structure SessionState where
  current_dir : String
  command_history : List String
  ip_address : String
  start_time : String
deriving DecidableEq

/-- Append one raw command to the session's history. -/
def appendHist (st : SessionState) (c : String) : SessionState :=
  { st with command_history := st.command_history ++ [c] }

/-- The canned root listing of the `ls` handler. -/
def rootListing : String :=
  "bin\nboot\ndev\netc\nhome\nlib\nproc\nroot\nrun\nsbin\ntmp\nusr\nvar\n"

/-- The canned `/etc/passwd` contents of the `cat` handler. -/
def passwdListing : String :=
  "root:x:0:0:root:/root:/bin/bash\nuser:x:1000:1000:User,,,:/home/user:/bin/bash\n"

/-- The normalized listing target of the `ls` branch (source lines 214-220);
the `try/except` of the source is dropped because the embedded path functions
are total. -/
def ls_target_norm (cur cmd : String) : String :=
  let tokens := pySplitMax1 cmd
  let target := if tokens.length > 1 then pyStrip (tokens.getD 1 "") else cur
  if pyStartsWith target "/" = true then normalize_dir target
  else normalize_dir (posixJoin cur target)

/-- `handle_local_command` (source lines 174-255). Returns the optional output
together with the (possibly mutated) session state. -/
def handle_local_command (command : String) (session : SessionState) :
    Option String × SessionState :=
  if pyStrip command = "cd" ∨ pyStartsWith (pyLower (pyStrip command)) "cd " = true then
    (some "",
     { session with
        current_dir := update_state (pyStrip command) session.current_dir
        command_history := session.command_history ++ [pyStrip command] })
  else if pyLower (pyStrip command) = "pwd" then
    (some (session.current_dir ++ "\n"), appendHist session (pyStrip command))
  else if pyLower (pyStrip command) = "whoami" then
    (some "user\n", appendHist session (pyStrip command))
  else if pyLower (pyStrip command) = "id" then
    (some "uid=1000(user) gid=1000(user) groups=1000(user)\n",
     appendHist session (pyStrip command))
  else if pyStartsWith (pyLower (pyStrip command)) "uname" = true then
    (some "Linux server-dev-01 4.19.0-21-amd64 #1 SMP Debian 9 x86_64 GNU/Linux\n",
     appendHist session (pyStrip command))
  else if pyStartsWith (pyLower (pyStrip command)) "ls" = true then
    (some
      (if ls_target_norm session.current_dir (pyStrip command) = "/" then rootListing
       else if pyEndsWith (ls_target_norm session.current_dir (pyStrip command)) "home/" = true then
         "user\n"
       else "file.txt\n"),
     appendHist session (pyStrip command))
  else if pyStartsWith (pyLower (pyStrip command)) "cat " = true then
    (some
      (if (pySplitMax1 (pyStrip command)).getD 1 "" = "/etc/passwd" ∨
          (pySplitMax1 (pyStrip command)).getD 1 "" = "etc/passwd" then passwdListing
       else if (pySplitMax1 (pyStrip command)).getD 1 "" = "/etc/hostname" ∨
          (pySplitMax1 (pyStrip command)).getD 1 "" = "etc/hostname" then "server-dev-01\n"
       else "cat: " ++ (pySplitMax1 (pyStrip command)).getD 1 "" ++ ": No such file or directory\n"),
     appendHist session (pyStrip command))
  else if pyStartsWith (pyLower (pyStrip command)) "echo " = true then
    (some ((pySplitSpace1 (pyStrip command)).getD 1 "" ++ "\n"),
     appendHist session (pyStrip command))
  else if pyLower (pyStrip command) = "help" ∨ pyLower (pyStrip command) = "--help" ∨
      pyLower (pyStrip command) = "-h" then
    (some "Supported (simulated) commands: cd, pwd, ls, whoami, id, uname, cat, echo\n",
     appendHist session (pyStrip command))
  else (none, session)

/-- `get_command_output` (source lines 341-361): local handlers first, then the
optional remote responder (abstracted as a function returning an optional
text), then the fixed fallback which is not recorded in history. -/
def get_command_output (llm : String → SessionState → Option String)
    (command : String) (st : SessionState) : String × SessionState :=
  match handle_local_command command st with
  | (some out, st1) => (out, st1)
  | (none, st1) =>
      match llm command st1 with
      | some t => (t, { st1 with command_history := st1.command_history ++ [command] })
      | none => ("bash: " ++ command ++ ": command not found\n", st1)

/-- The remote responder when no backend is configured
(`GEMINI_AVAILABLE = False`: `call_llm_for_command` returns `None` at once). -/
def noLLM : String → SessionState → Option String := fun _ _ => none

end Honeypot


namespace Honeypot

/-- Outcome of one backend request attempt inside `call_llm_for_command`:
either the attempt raises (transport error, malformed body, SDK failure), or
it produces an extracted text (possibly empty / whitespace-only, which the
source treats as a failure and silently retries). -/
inductive AttemptResult where
  | raises
  | returns (text : String)
deriving DecidableEq

/-- Instrumented result of a `call_llm_for_command` run: the returned optional
text, the list of backoff sleeps performed (in time units), and the number of
request attempts made. -/
structure LLMRun where
  result : Option String
  delays : List ℚ
  attempts : Nat
deriving DecidableEq

/-- The retry loop of `call_llm_for_command` (source lines 275-335), with the
backend abstracted as a map from attempt number to `AttemptResult`.  A raised
exception sleeps `backoff` and doubles it, but only when attempts remain; a
non-raising attempt with empty extracted text falls through to the next loop
iteration with no sleep; a non-empty text returns `text.strip() + "\n"`. -/
def llm_loop (attempt_outcome : Nat → AttemptResult) :
    Nat → Nat → ℚ → LLMRun
  | _, 0, _ => ⟨none, [], 0⟩
  | attempt, remaining + 1, backoff =>
      match attempt_outcome attempt with
      | .returns text =>
          if pyStrip text ≠ "" then ⟨some (pyStrip text ++ "\n"), [], 1⟩
          else
            let r := llm_loop attempt_outcome (attempt + 1) remaining backoff
            ⟨r.result, r.delays, r.attempts + 1⟩
      | .raises =>
          if 0 < remaining then
            let r := llm_loop attempt_outcome (attempt + 1) remaining (backoff * 2)
            ⟨r.result, backoff :: r.delays, r.attempts + 1⟩
          else ⟨none, [], 1⟩

/-- `call_llm_for_command` (source lines 261-335): immediately `None` when the
backend is unavailable, otherwise the retry loop starting at attempt 1 with a
base backoff of 0.5 time units. -/
def call_llm_for_command (gemini_available : Bool)
    (attempt_outcome : Nat → AttemptResult) (max_retries : Nat) : LLMRun :=
  if gemini_available = false then ⟨none, [], 0⟩
  else llm_loop attempt_outcome 1 max_retries (1 / 2)

/-- An attempt outcome the source counts as failed: a raised exception, or a
response whose extracted text strips to empty. -/
def llmFailed : AttemptResult → Prop
  | .raises => True
  | .returns text => pyStrip text = ""

/-- Delays that start at `b` and exactly double at each subsequent sleep. -/
def doublingFrom (b : ℚ) : List ℚ → Prop
  | [] => True
  | x :: xs => x = b ∧ doublingFrom (b * 2) xs

end Honeypot

namespace Honeypot

/-- One inbound read in the session loop of `handle_client`: a zero-length
read (peer closed), an exception during the iteration (reset / unexpected
error), or a chunk of data given by its decoded text (`errors="ignore"`
decoding is modelled by taking the post-decode text). -/
inductive RecvEvent where
  | closed
  | errored
  | data (chunk : String)

/-- The persisted projection of a finished session (`log_session`, source
lines 105-131): the serialized command list is kept as the list itself, and
the wall-clock `timestamp` column is outside the model. -/
structure SessionRecord where
  ip_address : String
  start_time : String
  final_dir : String
  command_count : Nat
  commands_json : List String
deriving DecidableEq

/-- `log_session` (source lines 105-131): build the record from the final
session state; `command_count` is the length of the captured history. -/
def log_session (sd : SessionState) : SessionRecord :=
  { ip_address := sd.ip_address
    start_time := sd.start_time
    final_dir := sd.current_dir
    command_count := sd.command_history.length
    commands_json := sd.command_history }

/-- The prompt string sent after the banner and after every processed
command. -/
def shellPrompt (st : SessionState) : String :=
  "user@server-dev-01:" ++ st.current_dir ++ "$ "

/-- The fixed banner line sent on accept. -/
def banner : String := "SSH-2.0-OpenSSH_8.2p1 Ubuntu-4ubuntu0.5\n"

/-- Result of running the receive/send loop: the final session state, the
commands handed to `get_command_output`, and the payloads passed to
`safe_send` (in order). -/
structure LoopResult where
  finalState : SessionState
  pipelineCalls : List String
  sends : List String
deriving DecidableEq

/-- The main receive/send loop of `handle_client` (source lines 400-439).
`sendOk n` tells whether the `n`-th `safe_send` of the session succeeds; a
failed send breaks out of the loop, as do `closed`/`errored` reads.  A chunk
whose decoded text strips to empty re-sends only the prompt. -/
def client_loop (llm : String → SessionState → Option String) (sendOk : Nat → Bool) :
    List RecvEvent → SessionState → Nat → LoopResult
  | [], st, _ => ⟨st, [], []⟩
  | .closed :: _, st, _ => ⟨st, [], []⟩
  | .errored :: _, st, _ => ⟨st, [], []⟩
  | .data chunk :: rest, st, n =>
      if pyStrip chunk = "" then
        if sendOk n then
          let r := client_loop llm sendOk rest st (n + 1)
          ⟨r.finalState, r.pipelineCalls, shellPrompt st :: r.sends⟩
        else ⟨st, [], [shellPrompt st]⟩
      else
        let out := get_command_output llm (pyStrip chunk) st
        if out.1 ≠ "" then
          if sendOk n then
            if sendOk (n + 1) then
              let r := client_loop llm sendOk rest out.2 (n + 2)
              ⟨r.finalState, pyStrip chunk :: r.pipelineCalls,
               out.1 :: shellPrompt out.2 :: r.sends⟩
            else ⟨out.2, [pyStrip chunk], [out.1, shellPrompt out.2]⟩
          else ⟨out.2, [pyStrip chunk], [out.1]⟩
        else
          if sendOk n then
            let r := client_loop llm sendOk rest out.2 (n + 1)
            ⟨r.finalState, pyStrip chunk :: r.pipelineCalls, shellPrompt out.2 :: r.sends⟩
          else ⟨out.2, [pyStrip chunk], [shellPrompt out.2]⟩

/-- Result of a whole `handle_client` run, including the `SessionStore`
records written at finalization. -/
structure ClientResult where
  finalState : SessionState
  writes : List SessionRecord
  pipelineCalls : List String
  sends : List String
deriving DecidableEq

/-- The `finally` block of `handle_client` (source lines 440-449): on every
exit path the final state is handed to `log_session` exactly once. -/
def finalizeSession (st : SessionState) (pc : List String) (sends : List String) :
    ClientResult :=
  ⟨st, [log_session st], pc, sends⟩

/-- `handle_client` (source lines 379-449): banner, initial prompt, main loop;
every exit path (failed banner send, failed prompt send, loop exit) runs the
finalization. -/
def handle_client (llm : String → SessionState → Option String) (sendOk : Nat → Bool)
    (recvs : List RecvEvent) (ip start_time : String) : ClientResult :=
  let st0 : SessionState := ⟨"/", [], ip, start_time⟩
  if sendOk 0 = false then finalizeSession st0 [] [banner]
  else if sendOk 1 = false then finalizeSession st0 [] [banner, shellPrompt st0]
  else
    let r := client_loop llm sendOk recvs st0 2
    finalizeSession r.finalState r.pipelineCalls (banner :: shellPrompt st0 :: r.sends)

/-- Fold a list of commands through the local handler starting from a freshly
accepted session (working directory `/`, empty history). -/
def run_local (ip start_time : String) (cmds : List String) : SessionState :=
  cmds.foldl (fun st c => (handle_local_command c st).2) ⟨"/", [], ip, start_time⟩

/-- A path segment allowed in a normalized directory: non-empty and neither
`.` nor `..`. -/
def goodSeg (seg : List Char) : Bool :=
  decide (seg ≠ []) && decide (seg ≠ ['.']) && decide (seg ≠ ['.', '.'])

/-- The specification's working-directory invariant: either exactly `/`, or a
string beginning and ending with `/` whose interior `/`-separated segments are
all non-empty and none of them is `.` or `..`. -/
def isNormalizedDir (s : String) : Bool :=
  decide (s = "/") ||
  (decide (s.data.head? = some '/') && decide (s.data.getLast? = some '/') &&
    ((splitSlash s.data).drop 1).dropLast.all goodSeg)

/-- The invariant that actually holds on the code: a normalized directory, or
one with a single extra leading slash (the POSIX double-slash root form that
`posixpath.normpath` preserves, e.g. `//` or `//etc/`). -/
def isAlmostNormalizedDir (s : String) : Bool :=
  isNormalizedDir s ||
  (decide (s.data.head? = some '/') && isNormalizedDir (String.mk s.data.tail))

end Honeypot

namespace Honeypot

/-! ### Lemmas about the path machinery -/

/-- A component kept by `normStep` on an absolute path: non-empty, not `.`,
not `..`, slash-free. -/
def GoodComp (x : List Char) : Prop :=
  x ≠ [] ∧ x ≠ ['.'] ∧ x ≠ ['.', '.'] ∧ ∀ c ∈ x, c ≠ '/'

theorem splitSlash_ne_nil (cs : List Char) : splitSlash cs ≠ [] := by
  induction cs with
  | nil => simp [splitSlash]
  | cons c cs ih =>
      by_cases h : c = '/'
      · simp [splitSlash, h]
      · simp only [splitSlash, if_neg h]
        cases hs : splitSlash cs with
        | nil => exact absurd hs ih
        | cons s ss => simp [consHead]

theorem splitSlash_no_slash (cs : List Char) (h : ∀ c ∈ cs, c ≠ '/') :
    splitSlash cs = [cs] := by
  induction cs with
  | nil => rfl
  | cons c cs ih =>
      have hc : c ≠ '/' := h c (by simp)
      have ih' := ih (fun d hd => h d (by simp [hd]))
      simp [splitSlash, if_neg hc, ih', consHead]

theorem splitSlash_append_slash (s r : List Char) (h : ∀ c ∈ s, c ≠ '/') :
    splitSlash (s ++ '/' :: r) = s :: splitSlash r := by
  induction s with
  | nil => simp [splitSlash]
  | cons c cs ih =>
      have hc : c ≠ '/' := h c (by simp)
      have ih' := ih (fun d hd => h d (by simp [hd]))
      simp [splitSlash, if_neg hc, ih', consHead]

theorem consHead_append (c : Char) (l m : List (List Char)) (h : l ≠ []) :
    consHead c (l ++ m) = consHead c l ++ m := by
  cases l with
  | nil => exact absurd rfl h
  | cons s ss => simp [consHead]

theorem splitSlash_concat_slash (cs : List Char) :
    splitSlash (cs ++ ['/']) = splitSlash cs ++ [[]] := by
  induction cs with
  | nil => rfl
  | cons c cs ih =>
      have hstep : (c :: cs) ++ ['/'] = c :: (cs ++ ['/']) := rfl
      rw [hstep]
      by_cases h : c = '/'
      · simp [splitSlash, h, ih]
      · show (if c = '/' then [] :: splitSlash (cs ++ ['/'])
              else consHead c (splitSlash (cs ++ ['/']))) = _
        rw [if_neg h, ih]
        show consHead c (splitSlash cs ++ [[]]) = _
        rw [consHead_append c (splitSlash cs) [[]] (splitSlash_ne_nil cs)]
        show _ = (if c = '/' then [] :: splitSlash cs else consHead c (splitSlash cs)) ++ [[]]
        rw [if_neg h]

theorem splitSlash_join (l : List (List Char)) (h : ∀ x ∈ l, ∀ c ∈ x, c ≠ '/')
    (hne : l ≠ []) : splitSlash (joinSlash l) = l := by
  induction l with
  | nil => exact absurd rfl hne
  | cons s ss ih =>
      cases ss with
      | nil => exact splitSlash_no_slash s (h s (by simp))
      | cons t ts =>
          have hs : ∀ c ∈ s, c ≠ '/' := h s (by simp)
          have hrest : ∀ x ∈ t :: ts, ∀ c ∈ x, c ≠ '/' :=
            fun x hx => h x (List.mem_cons_of_mem s hx)
          calc splitSlash (joinSlash (s :: t :: ts))
              = splitSlash (s ++ '/' :: joinSlash (t :: ts)) := rfl
            _ = s :: splitSlash (joinSlash (t :: ts)) := splitSlash_append_slash s _ hs
            _ = s :: t :: ts := by rw [ih hrest (by simp)]

theorem mem_splitSlash_no_slash (cs : List Char) :
    ∀ x ∈ splitSlash cs, ∀ c ∈ x, c ≠ '/' := by
  induction cs with
  | nil => intro x hx; simp [splitSlash] at hx; simp [hx]
  | cons c cs ih =>
      intro x hx
      by_cases h : c = '/'
      · simp only [splitSlash, if_pos h] at hx
        rcases List.mem_cons.mp hx with hx | hx
        · simp [hx]
        · exact ih x hx
      · simp only [splitSlash, if_neg h] at hx
        cases hs : splitSlash cs with
        | nil => exact absurd hs (splitSlash_ne_nil cs)
        | cons s ss =>
            rw [hs] at hx
            simp only [consHead] at hx
            rcases List.mem_cons.mp hx with hx | hx
            · subst hx
              intro d hd
              rcases List.mem_cons.mp hd with hd | hd
              · subst hd; exact h
              · exact ih s (by rw [hs]; simp) d hd
            · exact ih x (by rw [hs]; simp [hx])

theorem joinSlash_ne_nil (s : List Char) (ss : List (List Char)) (h : s ≠ []) :
    joinSlash (s :: ss) ≠ [] := by
  cases ss with
  | nil => exact h
  | cons t ts => simp [joinSlash, h]

theorem getLast_exists_of_ne_nil (xs : List Char) (h : xs ≠ []) :
    ∃ ch, xs.getLast? = some ch ∧ ch ∈ xs := by
  induction xs with
  | nil => exact absurd rfl h
  | cons x xs ih =>
      cases xs with
      | nil => exact ⟨x, rfl, by simp⟩
      | cons y ys =>
          obtain ⟨ch, hch, hm⟩ := ih (by simp)
          exact ⟨ch, by rw [List.getLast?_cons_cons]; exact hch, by simp [hm]⟩

theorem joinSlash_getLast (l : List (List Char))
    (h : ∀ x ∈ l, x ≠ [] ∧ ∀ c ∈ x, c ≠ '/') (hne : l ≠ []) :
    ∃ ch, (joinSlash l).getLast? = some ch ∧ ch ≠ '/' := by
  induction l with
  | nil => exact absurd rfl hne
  | cons s ss ih =>
      cases ss with
      | nil =>
          obtain ⟨hs, hsl⟩ := h s (by simp)
          obtain ⟨ch, hch, hm⟩ := getLast_exists_of_ne_nil s hs
          exact ⟨ch, hch, hsl ch hm⟩
      | cons t ts =>
          obtain ⟨ch, hch, hne'⟩ := ih (fun x hx => h x (List.mem_cons_of_mem s hx)) (by simp)
          refine ⟨ch, ?_, hne'⟩
          have hjoin : joinSlash (s :: t :: ts) = s ++ '/' :: joinSlash (t :: ts) := rfl
          rw [hjoin, List.getLast?_append]
          have htne : joinSlash (t :: ts) ≠ [] :=
            joinSlash_ne_nil t ts (h t (by simp)).1
          cases hj : joinSlash (t :: ts) with
          | nil => exact absurd hj htne
          | cons u us =>
              rw [hj] at hch
              simp [hch]

end Honeypot

namespace Honeypot

theorem normStep_preserves (k : Nat) (hk : 1 ≤ k) (acc : List (List Char))
    (comp : List Char) (hacc : ∀ x ∈ acc, GoodComp x) (hcomp : ∀ c ∈ comp, c ≠ '/') :
    ∀ x ∈ normStep k acc comp, GoodComp x := by
  intro x hx
  unfold normStep at hx
  split_ifs at hx with h1 h2 h3
  · exact hacc x hx
  · rcases List.mem_append.mp hx with hxa | hxc
    · exact hacc x hxa
    · have hxe : x = comp := by simpa using hxc
      subst hxe
      refine ⟨fun he => h1 (Or.inl he), fun he => h1 (Or.inr he), ?_, hcomp⟩
      rcases h2 with h2 | h2 | h2
      · exact h2
      · exact absurd h2.1 (by omega)
      · exact absurd rfl (hacc _ (List.mem_of_getLast?_eq_some h2.2)).2.2.1
  · exact hacc x ((List.dropLast_sublist acc).subset hx)
  · exact hacc x hx

theorem foldl_normStep_good (k : Nat) (hk : 1 ≤ k) (comps : List (List Char))
    (hcomps : ∀ x ∈ comps, ∀ c ∈ x, c ≠ '/') :
    ∀ acc, (∀ x ∈ acc, GoodComp x) → ∀ x ∈ comps.foldl (normStep k) acc, GoodComp x := by
  induction comps with
  | nil => intro acc hacc; exact hacc
  | cons c cs ih =>
      intro acc hacc
      simp only [List.foldl_cons]
      exact ih (fun x hx => hcomps x (List.mem_cons_of_mem c hx)) _
        (normStep_preserves k hk acc c hacc (hcomps c (List.mem_cons_self c cs)))

theorem initialSlashes_of_head (cs : List Char) (h : cs.head? = some '/') :
    initialSlashes cs = 1 ∨ initialSlashes cs = 2 := by
  cases cs with
  | nil => simp at h
  | cons c r =>
      have hc : c = '/' := by simpa using h
      subst hc
      unfold initialSlashes
      rw [if_pos (by simp [List.isPrefixOf_cons₂])]
      split_ifs <;> simp

theorem normpathChars_of_head (cs : List Char) (h : cs.head? = some '/') :
    normpathChars cs =
      List.replicate (initialSlashes cs) '/' ++
        joinSlash ((splitSlash cs).foldl (normStep (initialSlashes cs)) []) := by
  have hne : cs ≠ [] := by cases cs <;> simp_all
  have hk : 1 ≤ initialSlashes cs := by
    rcases initialSlashes_of_head cs h with hk | hk <;> omega
  unfold normpathChars
  rw [if_neg hne]
  have hrep : List.replicate (initialSlashes cs) '/' ++
      joinSlash ((splitSlash cs).foldl (normStep (initialSlashes cs)) []) ≠ [] := by
    intro he
    have := List.append_eq_nil.mp he
    have hlen : (List.replicate (initialSlashes cs) '/').length = 0 := by rw [this.1]; rfl
    rw [List.length_replicate] at hlen
    omega
  exact if_neg hrep

end Honeypot

namespace Honeypot

theorem data_append (s t : String) : (s ++ t).data = s.data ++ t.data := rfl

theorem goodSeg_of_GoodComp (x : List Char) (h : GoodComp x) : goodSeg x = true := by
  simp [goodSeg, h.1, h.2.1, h.2.2.1]

theorem isNormalizedDir_wrap (l : List (List Char)) (hl : ∀ x ∈ l, GoodComp x)
    (hne : l ≠ []) :
    isNormalizedDir (String.mk ('/' :: (joinSlash l ++ ['/']))) = true := by
  have hsplit : splitSlash ('/' :: (joinSlash l ++ ['/'])) = [] :: (l ++ [[]]) := by
    have h1 : splitSlash ('/' :: (joinSlash l ++ ['/'])) =
        [] :: splitSlash (joinSlash l ++ ['/']) := by simp [splitSlash]
    rw [h1, splitSlash_concat_slash,
      splitSlash_join l (fun x hx => (hl x hx).2.2.2) hne]
  have hlast : ('/' :: (joinSlash l ++ ['/'])).getLast? = some '/' := by
    rw [show ('/' :: (joinSlash l ++ ['/'])) = ('/' :: joinSlash l) ++ ['/'] by simp]
    exact List.getLast?_concat _
  unfold isNormalizedDir
  rw [Bool.or_eq_true]
  right
  rw [Bool.and_eq_true, Bool.and_eq_true]
  refine ⟨⟨by simp, by simp [hlast]⟩, ?_⟩
  rw [show (String.mk ('/' :: (joinSlash l ++ ['/']))).data
        = '/' :: (joinSlash l ++ ['/']) from rfl, hsplit]
  rw [List.drop_one, List.tail_cons, List.dropLast_concat]
  exact List.all_eq_true.mpr (fun x hx => goodSeg_of_GoodComp x (hl x hx))

theorem endsWith_slash_false (s : String) (ch : Char)
    (h : s.data.getLast? = some ch) (hne : ch ≠ '/') :
    pyEndsWith s "/" = false := by
  unfold pyEndsWith
  unfold List.isSuffixOf
  have hrev : s.data.reverse.head? = some ch := by rw [List.head?_reverse]; exact h
  cases hr : s.data.reverse with
  | nil => rw [hr] at hrev; simp at hrev
  | cons c t =>
      rw [hr] at hrev
      have hc : c = ch := by simpa using hrev
      subst hc
      rw [show ("/" : String).data = ['/'] from rfl]
      rw [show (['/'] : List Char).reverse = ['/'] from rfl]
      rw [List.isPrefixOf_cons₂]
      simp [bne, hne, Ne.symm hne]

theorem normalize_dir_absolute (p : String) (h : p.data.head? = some '/') :
    isAlmostNormalizedDir (normalize_dir p) = true := by
  obtain ⟨r, hp⟩ : ∃ r, p.data = '/' :: r := by
    cases hd : p.data with
    | nil => rw [hd] at h; simp at h
    | cons c cs =>
        rw [hd] at h
        have hc : c = '/' := by simpa using h
        exact ⟨cs, by rw [hc]⟩
  have hpne : p ≠ "" := by
    intro he
    rw [he] at hp
    simp [show ("" : String).data = [] from rfl] at hp
  have hk12 := initialSlashes_of_head p.data (by rw [hp]; rfl)
  have hk : 1 ≤ initialSlashes p.data := by rcases hk12 with h' | h' <;> omega
  have hgood : ∀ x ∈ (splitSlash p.data).foldl (normStep (initialSlashes p.data)) [],
      GoodComp x :=
    foldl_normStep_good _ hk (splitSlash p.data) (mem_splitSlash_no_slash p.data) []
      (by simp)
  have hnc := normpathChars_of_head p.data (by rw [hp]; rfl)
  have hnp : normpath p = String.mk (List.replicate (initialSlashes p.data) '/' ++
      joinSlash ((splitSlash p.data).foldl (normStep (initialSlashes p.data)) [])) := by
    unfold normpath
    rw [hnc]
  have hnpdot : normpath p ≠ "." := by
    intro he
    have hd := congrArg String.data he
    rw [hnp] at hd
    rw [show (String.mk (List.replicate (initialSlashes p.data) '/' ++
      joinSlash ((splitSlash p.data).foldl (normStep (initialSlashes p.data)) []))).data
        = List.replicate (initialSlashes p.data) '/' ++
          joinSlash ((splitSlash p.data).foldl (normStep (initialSlashes p.data)) [])
      from rfl] at hd
    rcases hk12 with h1 | h1 <;> rw [h1] at hd <;> simp at hd
  unfold normalize_dir
  rw [if_neg hpne, if_neg hnpdot]
  cases hm : (splitSlash p.data).foldl (normStep (initialSlashes p.data)) [] with
  | nil =>
      rw [hm] at hnp
      rcases hk12 with h1 | h1 <;> rw [h1] at hnp
      · have hthis : normpath p = "/" := by
          rw [hnp]
          exact String.ext rfl
        simp only [hthis]
        all_goals decide
      · have hthis : normpath p = "//" := by
          rw [hnp]
          exact String.ext rfl
        simp only [hthis]
        all_goals decide
  | cons m0 ms =>
      have hmne : (splitSlash p.data).foldl (normStep (initialSlashes p.data)) [] ≠ [] := by
        rw [hm]; simp
      obtain ⟨ch, hch, hchne⟩ := joinSlash_getLast _
        (fun x hx => ⟨(hgood x hx).1, (hgood x hx).2.2.2⟩) hmne
      have hdata : (normpath p).data = List.replicate (initialSlashes p.data) '/' ++
          joinSlash ((splitSlash p.data).foldl (normStep (initialSlashes p.data)) []) := by
        rw [hnp]
      have hlast : (normpath p).data.getLast? = some ch := by
        rw [hdata, List.getLast?_append, hch]
        rfl
      have hroot : normpath p ≠ "/" := by
        intro he
        rw [he] at hlast
        rw [show ("/" : String).data = ['/'] from rfl] at hlast
        simp at hlast
        exact hchne hlast.symm
      have hends := endsWith_slash_false (normpath p) ch hlast hchne
      unfold ensure_trailing_slash
      rw [if_pos ⟨hroot, hends⟩]
      have hdata2 : (normpath p ++ "/").data =
          List.replicate (initialSlashes p.data) '/' ++
            joinSlash ((splitSlash p.data).foldl (normStep (initialSlashes p.data)) []) ++
            ['/'] := by
        rw [data_append, hdata]
      rcases hk12 with h1 | h1
      · have hrep : List.replicate (initialSlashes p.data) '/' = ['/'] := by
          simp [h1, List.replicate_succ]
        rw [hrep] at hdata2
        have heq : normpath p ++ "/" = String.mk ('/' ::
            (joinSlash ((splitSlash p.data).foldl (normStep (initialSlashes p.data)) []) ++
              ['/'])) := by
          apply String.ext
          rw [hdata2]
          simp
        rw [heq]
        unfold isAlmostNormalizedDir
        rw [Bool.or_eq_true]
        exact Or.inl (isNormalizedDir_wrap _ hgood hmne)
      · have hrep : List.replicate (initialSlashes p.data) '/' = ['/', '/'] := by
          simp [h1, List.replicate_succ]
        rw [hrep] at hdata2
        have heq : normpath p ++ "/" = String.mk ('/' :: '/' ::
            (joinSlash ((splitSlash p.data).foldl (normStep (initialSlashes p.data)) []) ++
              ['/'])) := by
          apply String.ext
          rw [hdata2]
          simp
        rw [heq]
        unfold isAlmostNormalizedDir
        rw [Bool.or_eq_true]
        right
        rw [Bool.and_eq_true]
        constructor
        · simp
        · exact isNormalizedDir_wrap _ hgood hmne

end Honeypot

namespace Honeypot

theorem startsWith_slash_head (s : String) (h : pyStartsWith s "/" = true) :
    s.data.head? = some '/' := by
  unfold pyStartsWith at h
  rw [show ("/" : String).data = ['/'] from rfl] at h
  cases hd : s.data with
  | nil => rw [hd] at h; simp [List.isPrefixOf] at h
  | cons c cs =>
      rw [hd] at h
      rw [List.isPrefixOf_cons₂] at h
      simp at h
      simp [← h]

theorem isNormalizedDir_head (s : String) (h : isNormalizedDir s = true) :
    s.data.head? = some '/' := by
  unfold isNormalizedDir at h
  rw [Bool.or_eq_true] at h
  rcases h with h | h
  · have hs : s = "/" := by simpa using h
    rw [hs]
    rfl
  · rw [Bool.and_eq_true, Bool.and_eq_true] at h
    simpa using h.1.1

theorem isAlmostNormalizedDir_head (s : String) (h : isAlmostNormalizedDir s = true) :
    s.data.head? = some '/' := by
  unfold isAlmostNormalizedDir at h
  rw [Bool.or_eq_true] at h
  rcases h with h | h
  · exact isNormalizedDir_head s h
  · rw [Bool.and_eq_true] at h
    simpa using h.1

theorem append_head_slash (d x : String) (h : d.data.head? = some '/') :
    (d ++ x).data.head? = some '/' := by
  rw [data_append]
  cases hd : d.data with
  | nil => rw [hd] at h; simp at h
  | cons c cs =>
      rw [hd] at h
      simp at h
      simp [h]

theorem cd_resolve_almost (d t : String) (h : d.data.head? = some '/') :
    isAlmostNormalizedDir (cd_resolve d t) = true := by
  unfold cd_resolve
  split_ifs with h1 h2
  · decide
  · exact normalize_dir_absolute t (startsWith_slash_head t h2)
  · apply normalize_dir_absolute
    unfold posixJoin
    split_ifs with h3
    · exact append_head_slash d t h
    · exact append_head_slash (d ++ "/") t (append_head_slash d "/" h)

theorem update_state_almost (c d : String) (h : isAlmostNormalizedDir d = true) :
    isAlmostNormalizedDir (update_state c d) = true := by
  unfold update_state
  split_ifs with h1
  · exact cd_resolve_almost d _ (isAlmostNormalizedDir_head d h)
  · exact h

set_option maxHeartbeats 1000000 in
theorem handle_local_command_dir (c : String) (st : SessionState)
    (h : isAlmostNormalizedDir st.current_dir = true) :
    isAlmostNormalizedDir ((handle_local_command c st).2.current_dir) = true := by
  unfold handle_local_command
  split_ifs <;>
    first
      | exact h
      | exact update_state_almost _ _ h

end Honeypot

namespace Honeypot

set_option maxHeartbeats 1000000 in
theorem handle_local_none (c : String) (st : SessionState)
    (h : (handle_local_command c st).1 = none) :
    handle_local_command c st = (none, st) := by
  unfold handle_local_command at h ⊢
  split_ifs at h ⊢ <;> rfl

theorem llm_loop_succ_returns (o : Nat → AttemptResult) (a n : Nat) (b : ℚ)
    (t : String) (ho : o a = .returns t) :
    llm_loop o a (n + 1) b =
      if pyStrip t ≠ "" then ⟨some (pyStrip t ++ "\n"), [], 1⟩
      else ⟨(llm_loop o (a + 1) n b).result, (llm_loop o (a + 1) n b).delays,
            (llm_loop o (a + 1) n b).attempts + 1⟩ := by
  simp only [llm_loop, ho]

theorem llm_loop_succ_raises (o : Nat → AttemptResult) (a n : Nat) (b : ℚ)
    (ho : o a = .raises) :
    llm_loop o a (n + 1) b =
      if 0 < n then
        ⟨(llm_loop o (a + 1) n (b * 2)).result,
         b :: (llm_loop o (a + 1) n (b * 2)).delays,
         (llm_loop o (a + 1) n (b * 2)).attempts + 1⟩
      else ⟨none, [], 1⟩ := by
  simp only [llm_loop, ho]

theorem llm_loop_attempts_le (o : Nat → AttemptResult) :
    ∀ (r a : Nat) (b : ℚ), (llm_loop o a r b).attempts ≤ r := by
  intro r
  induction r with
  | zero => intro a b; simp [llm_loop]
  | succ n ih =>
      intro a b
      cases ho : o a with
      | returns t =>
          rw [llm_loop_succ_returns o a n b t ho]
          split_ifs with ht
          · simp
          · simpa using Nat.succ_le_succ (ih (a + 1) b)
      | raises =>
          rw [llm_loop_succ_raises o a n b ho]
          split_ifs with hn
          · simpa using Nat.succ_le_succ (ih (a + 1) (b * 2))
          · simp

theorem llm_loop_attempts_pos (o : Nat → AttemptResult) :
    ∀ (r a : Nat) (b : ℚ), 1 ≤ r → 1 ≤ (llm_loop o a r b).attempts := by
  intro r
  cases r with
  | zero => intro a b hr; omega
  | succ n =>
      intro a b _
      cases ho : o a with
      | returns t =>
          rw [llm_loop_succ_returns o a n b t ho]
          split_ifs <;> simp
      | raises =>
          rw [llm_loop_succ_raises o a n b ho]
          split_ifs <;> simp

theorem llm_loop_doubling (o : Nat → AttemptResult) :
    ∀ (r a : Nat) (b : ℚ), doublingFrom b (llm_loop o a r b).delays := by
  intro r
  induction r with
  | zero => intro a b; simp [llm_loop, doublingFrom]
  | succ n ih =>
      intro a b
      cases ho : o a with
      | returns t =>
          rw [llm_loop_succ_returns o a n b t ho]
          split_ifs with ht
          · simp [doublingFrom]
          · exact ih (a + 1) b
      | raises =>
          rw [llm_loop_succ_raises o a n b ho]
          split_ifs with hn
          · exact ⟨rfl, ih (a + 1) (b * 2)⟩
          · simp [doublingFrom]

theorem llm_loop_delays_bound (o : Nat → AttemptResult) :
    ∀ (r a : Nat) (b : ℚ),
      (llm_loop o a r b).delays = [] ∨
        (llm_loop o a r b).delays.length < (llm_loop o a r b).attempts := by
  intro r
  induction r with
  | zero => intro a b; left; simp [llm_loop]
  | succ n ih =>
      intro a b
      cases ho : o a with
      | returns t =>
          rw [llm_loop_succ_returns o a n b t ho]
          split_ifs with ht
          · left; rfl
          · rcases ih (a + 1) b with h | h
            · left; exact h
            · right
              simpa using Nat.lt_succ_of_lt h
      | raises =>
          rw [llm_loop_succ_raises o a n b ho]
          split_ifs with hn
          · right
            rcases ih (a + 1) (b * 2) with h | h
            · have hpos := llm_loop_attempts_pos o n (a + 1) (b * 2) hn
              simp [h]
              omega
            · simp
              omega
          · left; rfl

theorem llm_loop_all_failed (o : Nat → AttemptResult) (hall : ∀ i, llmFailed (o i)) :
    ∀ (r a : Nat) (b : ℚ), (llm_loop o a r b).result = none := by
  intro r
  induction r with
  | zero => intro a b; simp [llm_loop]
  | succ n ih =>
      intro a b
      have hfail := hall a
      cases ho : o a with
      | returns t =>
          rw [ho] at hfail
          have ht : ¬ pyStrip t ≠ "" := by simpa [llmFailed] using hfail
          rw [llm_loop_succ_returns o a n b t ho, if_neg ht]
          exact ih (a + 1) b
      | raises =>
          rw [llm_loop_succ_raises o a n b ho]
          split_ifs with hn
          · exact ih (a + 1) (b * 2)
          · rfl

end Honeypot

namespace Honeypot

theorem isPrefixOf_exists {p l : List Char} (h : p.isPrefixOf l = true) :
    ∃ t, l = p ++ t := by
  induction p generalizing l with
  | nil => exact ⟨l, rfl⟩
  | cons a as ih =>
      cases l with
      | nil => simp at h
      | cons b bs =>
          rw [List.isPrefixOf_cons₂, Bool.and_eq_true] at h
          obtain ⟨t, ht⟩ := ih h.2
          have hab : a = b := by simpa using h.1
          exact ⟨t, by rw [hab, ht, List.cons_append]⟩

theorem pyStartsWith_false_head {s p : String} {c d : Char} {cs ds : List Char}
    (hs : s.data = c :: cs) (hp : p.data = d :: ds) (hne : d ≠ c) :
    pyStartsWith s p = false := by
  unfold pyStartsWith
  rw [hs, hp, List.isPrefixOf_cons₂]
  simp [hne]

theorem pyStartsWith_false_second {s p : String} {c d1 d2 : Char} {cs ds : List Char}
    (hs : s.data = c :: d1 :: cs) (hp : p.data = c :: d2 :: ds) (hne : d2 ≠ d1) :
    pyStartsWith s p = false := by
  unfold pyStartsWith
  rw [hs, hp, List.isPrefixOf_cons₂, List.isPrefixOf_cons₂]
  simp [hne]

end Honeypot

namespace Honeypot

/-- A chain of `n + 1` `..` segments: `..`, `../..`, `../../..`, and so on. -/
def dotdotChain : Nat → String
  | 0 => ".."
  | n + 1 => "../" ++ dotdotChain n

theorem isNormalizedDir_unfold (s : String) (h : isNormalizedDir s = true) :
    s = "/" ∨ (s.data.head? = some '/' ∧ s.data.getLast? = some '/' ∧
      ((splitSlash s.data).drop 1).dropLast.all goodSeg = true) := by
  unfold isNormalizedDir at h
  rw [Bool.or_eq_true, Bool.and_eq_true, Bool.and_eq_true] at h
  rcases h with h | ⟨⟨h1, h2⟩, h3⟩
  · left; simpa using h
  · right; exact ⟨by simpa using h1, by simpa using h2, h3⟩

theorem no_dotdot_of_normalized (s : String) (h : isNormalizedDir s = true) :
    (splitSlash s.data).all (fun seg => decide (seg ≠ ['.', '.'])) = true := by
  rcases isNormalizedDir_unfold s h with h | ⟨h1, h2, h3⟩
  · rw [h]
    decide
  · obtain ⟨r, hr⟩ : ∃ r, s.data = '/' :: r := by
      cases hd : s.data with
      | nil => rw [hd] at h1; simp at h1
      | cons c cs =>
          rw [hd] at h1
          have hc : c = '/' := by simpa using h1
          exact ⟨cs, by rw [hc]⟩
    by_cases hrn : r = []
    · subst hrn
      rw [hr]
      decide
    · have h2r : r.getLast? = some '/' := by
        rw [hr] at h2
        cases r with
        | nil => exact absurd rfl hrn
        | cons y ys => rw [List.getLast?_cons_cons] at h2; exact h2
      obtain ⟨r0, hr0⟩ : ∃ r0, r = r0 ++ ['/'] := by
        have hconcat := List.dropLast_concat_getLast hrn
        have hlasteq : r.getLast hrn = '/' := by
          have := List.getLast?_eq_getLast r hrn
          rw [this] at h2r
          exact Option.some.inj h2r
        exact ⟨r.dropLast, by rw [← hlasteq]; exact hconcat.symm⟩
      have hsplit : splitSlash s.data = [] :: (splitSlash r0 ++ [[]]) := by
        rw [hr, hr0]
        rw [show splitSlash ('/' :: (r0 ++ ['/'])) = [] :: splitSlash (r0 ++ ['/'])
          from by simp [splitSlash]]
        rw [splitSlash_concat_slash]
      have hint : ((splitSlash s.data).drop 1).dropLast = splitSlash r0 := by
        rw [hsplit, List.drop_one, List.tail_cons, List.dropLast_concat]
      rw [hint] at h3
      rw [hsplit]
      apply List.all_eq_true.mpr
      intro x hx
      rcases List.mem_cons.mp hx with hx | hx
      · subst hx; decide
      rcases List.mem_append.mp hx with hx | hx
      · have hg := List.all_eq_true.mp h3 x hx
        simp only [goodSeg, Bool.and_eq_true, decide_eq_true_eq] at hg
        exact decide_eq_true hg.2
      · have hxe : x = [] := by simpa using hx
        subst hxe; decide

theorem no_dotdot_of_almost (s : String) (h : isAlmostNormalizedDir s = true) :
    (splitSlash s.data).all (fun seg => decide (seg ≠ ['.', '.'])) = true := by
  unfold isAlmostNormalizedDir at h
  rw [Bool.or_eq_true] at h
  rcases h with h | h
  · exact no_dotdot_of_normalized s h
  · rw [Bool.and_eq_true] at h
    have h1 : s.data.head? = some '/' := by simpa using h.1
    obtain ⟨r, hr⟩ : ∃ r, s.data = '/' :: r := by
      cases hd : s.data with
      | nil => rw [hd] at h1; simp at h1
      | cons c cs =>
          rw [hd] at h1
          have hc : c = '/' := by simpa using h1
          exact ⟨cs, by rw [hc]⟩
    have htail : (String.mk s.data.tail).data = r := by rw [hr]; rfl
    have h2 := no_dotdot_of_normalized _ h.2
    rw [htail] at h2
    rw [hr]
    rw [show splitSlash ('/' :: r) = [] :: splitSlash r from by simp [splitSlash]]
    apply List.all_eq_true.mpr
    intro x hx
    rcases List.mem_cons.mp hx with hx | hx
    · subst hx; decide
    · exact List.all_eq_true.mp h2 x hx

theorem dotdotChain_data (n : Nat) : ∃ u, (dotdotChain n).data = '.' :: '.' :: u := by
  cases n with
  | zero => exact ⟨[], rfl⟩
  | succ m => exact ⟨'/' :: (dotdotChain m).data, rfl⟩

theorem splitSlash_dotdotChain (n : Nat) :
    splitSlash (dotdotChain n).data = List.replicate (n + 1) ['.', '.'] := by
  induction n with
  | zero => decide
  | succ m ih =>
      have hd : (dotdotChain (m + 1)).data = '.' :: '.' :: '/' :: (dotdotChain m).data := rfl
      rw [hd]
      have hstep : splitSlash ('.' :: '.' :: '/' :: (dotdotChain m).data)
          = ['.', '.'] :: splitSlash (dotdotChain m).data := rfl
      rw [hstep, ih, ← List.replicate_succ]

theorem foldl_dotdot_root (l : List (List Char))
    (h : ∀ x ∈ l, x = [] ∨ x = ['.', '.']) : l.foldl (normStep 1) [] = [] := by
  induction l with
  | nil => rfl
  | cons x xs ih =>
      have hx := h x (List.mem_cons_self x xs)
      have hstep : normStep 1 [] x = [] := by
        rcases hx with hx | hx <;> subst hx <;> decide
      rw [List.foldl_cons, hstep]
      exact ih (fun y hy => h y (List.mem_cons_of_mem x hy))

theorem cd_resolve_root_dotdot (n : Nat) : cd_resolve "/" (dotdotChain n) = "/" := by
  obtain ⟨u, hu⟩ := dotdotChain_data n
  have hne : ¬ (dotdotChain n = "" ∨ dotdotChain n = "~") := by
    rintro (he | he) <;> rw [he] at hu <;>
      first
        | exact absurd hu (by rw [show ("" : String).data = [] from rfl]; simp)
        | exact absurd hu (by rw [show ("~" : String).data = ['~'] from rfl]; simp)
  have hns : pyStartsWith (dotdotChain n) "/" = false :=
    pyStartsWith_false_head hu rfl (by decide)
  have hns2 : ¬ pyStartsWith (dotdotChain n) "/" = true := by rw [hns]; decide
  unfold cd_resolve
  rw [if_neg hne, if_neg hns2]
  have hj : posixJoin "/" (dotdotChain n) = "/" ++ dotdotChain n := by
    unfold posixJoin
    rw [if_neg hns2, if_pos (Or.inr (by decide))]
  rw [hj]
  have hdataj : ("/" ++ dotdotChain n).data = '/' :: (dotdotChain n).data := rfl
  have hk : initialSlashes ("/" ++ dotdotChain n).data = 1 := by
    rw [hdataj, hu]
    unfold initialSlashes
    rw [if_pos (show (['/'] : List Char).isPrefixOf ('/' :: '.' :: '.' :: u) = true
      from rfl)]
    rw [if_neg ?hcond]
    case hcond =>
      rintro ⟨ha, _⟩
      rw [show (['/', '/'] : List Char).isPrefixOf ('/' :: '.' :: '.' :: u) = false
        from rfl] at ha
      exact absurd ha (by decide)
  have hallcomp : ∀ x ∈ ([] :: List.replicate (n + 1) ['.', '.'] :
      List (List Char)), x = [] ∨ x = ['.', '.'] := by
    intro x hx
    rcases List.mem_cons.mp hx with hx | hx
    · exact Or.inl hx
    · exact Or.inr (List.eq_of_mem_replicate hx)
  have hnp : normpath ("/" ++ dotdotChain n) = "/" := by
    unfold normpath
    apply String.ext
    rw [show (String.mk (normpathChars ("/" ++ dotdotChain n).data)).data
        = normpathChars ("/" ++ dotdotChain n).data from rfl]
    rw [normpathChars_of_head _ (by rw [hdataj]; rfl)]
    rw [hk]
    have hsp : splitSlash ("/" ++ dotdotChain n).data
        = [] :: List.replicate (n + 1) ['.', '.'] := by
      rw [hdataj]
      rw [show splitSlash ('/' :: (dotdotChain n).data)
          = [] :: splitSlash (dotdotChain n).data from by simp [splitSlash]]
      rw [splitSlash_dotdotChain]
    rw [hsp, foldl_dotdot_root _ hallcomp]
    rfl
  have hjne : "/" ++ dotdotChain n ≠ "" := by
    intro he
    have := congrArg String.data he
    rw [hdataj, show ("" : String).data = [] from rfl] at this
    simp at this
  unfold normalize_dir
  rw [if_neg hjne, hnp]
  rw [if_neg (show ¬ ("/" : String) = "." by decide)]
  decide


/-! ### Claim theorems -/

/-- C1: for every session — whatever the scripted reads, send outcomes, and
backend behaviour, hence for zero, one, or many commands and for every way the
connection can end (clean close, read error, failed banner/prompt/output send,
or an exception during an iteration) — `handle_client` performs exactly one
`SessionStore` write, and the persisted `command_count` equals the length of
the session's `command_history` at disconnect. -/
theorem session_store_record_exactly_once
    (llm : String → SessionState → Option String) (sendOk : Nat → Bool)
    (recvs : List RecvEvent) (ip start_time : String) :
    (handle_client llm sendOk recvs ip start_time).writes =
      [log_session (handle_client llm sendOk recvs ip start_time).finalState] ∧
    (handle_client llm sendOk recvs ip start_time).writes.map
        SessionRecord.command_count =
      [(handle_client llm sendOk recvs ip start_time).finalState.command_history.length] := by
  unfold handle_client
  split_ifs <;> exact ⟨rfl, rfl⟩

/-- C2: for every normalized absolute current directory and every target
string, the resolved directory never escapes above the root: it is still
root-anchored (starts with `/`), it is a normalized absolute path (up to the
POSIX double-slash root form), and no `..` segment survives into it — `..`
segments are consumed and clamped; moreover any chain `..`, `../..`,
`../../..`, … of `..` segments resolved at `/` stays exactly at `/`, and in
particular resolving `../../../etc` against `/home/` yields exactly `/etc/`. -/
theorem cd_resolve_never_escapes_root :
    (∀ d t, isNormalizedDir d = true →
      (cd_resolve d t).data.head? = some '/' ∧
        isAlmostNormalizedDir (cd_resolve d t) = true ∧
        (splitSlash (cd_resolve d t).data).all
          (fun seg => decide (seg ≠ ['.', '.'])) = true) ∧
    (∀ n, cd_resolve "/" (dotdotChain n) = "/") ∧
    cd_resolve "/home/" "../../../etc" = "/etc/" := by
  refine ⟨?_, cd_resolve_root_dotdot, by decide⟩
  intro d t hd
  have hh := cd_resolve_almost d t (isNormalizedDir_head d hd)
  exact ⟨isAlmostNormalizedDir_head _ hh, hh, no_dotdot_of_almost _ hh⟩

/-- C2 witness: the general part of `cd_resolve_never_escapes_root` applied at
the concrete directory `/home/` and target `..`. -/
theorem cd_resolve_never_escapes_root_witness :
    (cd_resolve "/home/" "..").data.head? = some '/' ∧
      isAlmostNormalizedDir (cd_resolve "/home/" "..") = true ∧
      (splitSlash (cd_resolve "/home/" "..").data).all
        (fun seg => decide (seg ≠ ['.', '.'])) = true :=
  cd_resolve_never_escapes_root.1 "/home/" ".." (by decide)

/-- C3 counterexample: processing the single command `cd //` from the initial
state `/` leaves the working directory at `//`, which begins and ends with `/`
but contains an empty segment, so it is not a normalized absolute path in the
sense of the claim. -/
theorem working_dir_normalized_cex :
    (run_local "203.0.113.7" "2026-10-12 00:00:00" ["cd //"]).current_dir = "//" ∧
    isNormalizedDir
      (run_local "203.0.113.7" "2026-10-12 00:00:00" ["cd //"]).current_dir = false := by
  decide

/-- C3 amended: after any sequence of commands processed by the local handler
from the initial state, the working directory is either a normalized absolute
path (exactly `/`, or beginning and ending with `/` with no empty, `.` or `..`
segments), or such a path with one extra leading slash (the POSIX double-slash
root form, e.g. `//` or `//etc/`, which `posixpath.normpath` preserves). -/
theorem working_dir_almost_normalized (ip start_time : String) (cmds : List String) :
    isAlmostNormalizedDir (run_local ip start_time cmds).current_dir = true := by
  unfold run_local
  have hgen : ∀ (cs : List String) (st : SessionState),
      isAlmostNormalizedDir st.current_dir = true →
      isAlmostNormalizedDir
        ((cs.foldl (fun st c => (handle_local_command c st).2) st)).current_dir = true := by
    intro cs
    induction cs with
    | nil => intro st h; exact h
    | cons c cs ih =>
        intro st h
        exact ih _ (handle_local_command_dir c st h)
  exact hgen cmds _ (by show isAlmostNormalizedDir "/" = true; decide)

/-- C4: a command the local handler does not recognize, with no backend
configured, produces exactly the `bash: <command>: command not found` message
naming the command, and leaves the session state (in particular the history
and its length) unchanged. -/
theorem unknown_command_fallback (cmd : String) (st : SessionState)
    (h : (handle_local_command cmd st).1 = none) :
    get_command_output noLLM cmd st =
      ("bash: " ++ cmd ++ ": command not found\n", st) := by
  have hm := handle_local_none cmd st h
  unfold get_command_output
  rw [hm]
  rfl

/-- C4 witness: the unrecognized command `zzz` against a fresh session. -/
theorem unknown_command_fallback_witness :
    get_command_output noLLM "zzz" ⟨"/", [], "203.0.113.7", "t0"⟩ =
      ("bash: zzz: command not found\n", ⟨"/", [], "203.0.113.7", "t0"⟩) :=
  unknown_command_fallback "zzz" ⟨"/", [], "203.0.113.7", "t0"⟩ (by decide)

/-- C7 counterexample: `resolve(resolve(d, t), "")` is not a no-op — the code
resets an empty target to the root, so at `d = "/"`, `t = "home"` the inner
resolution gives `/home/` while the outer empty-target resolution gives `/`. -/
theorem empty_target_not_noop_cex :
    cd_resolve "/" "home" = "/home/" ∧
    cd_resolve (cd_resolve "/" "home") "" = "/" ∧
    cd_resolve (cd_resolve "/" "home") "" ≠ cd_resolve "/" "home" := by
  decide

/-- C7 amended: directory resolution is pure and total, and an empty target or
`~` resolves to `/` for every current directory; consequently
`resolve(resolve(d, t), "")` always returns `/` — a no-op only when
`resolve(d, t)` is already `/`.  A bare `cd` command likewise resets to `/`. -/
theorem empty_target_resets_root (d t : String) :
    cd_resolve d "" = "/" ∧
    cd_resolve d "~" = "/" ∧
    cd_resolve (cd_resolve d t) "" = "/" ∧
    update_state "cd" d = "/" := by
  refine ⟨rfl, rfl, rfl, ?_⟩
  unfold update_state
  rw [if_pos (Or.inl (by decide))]
  rfl

/-- C8: an inbound chunk that decodes and trims to an empty command re-sends
only the prompt and continues the loop with the session state unchanged: the
command pipeline is not consulted and no history entry or directory change can
occur for that chunk. -/
theorem empty_command_resends_prompt
    (llm : String → SessionState → Option String) (sendOk : Nat → Bool)
    (chunk : String) (rest : List RecvEvent) (st : SessionState) (n : Nat)
    (h : pyStrip chunk = "") (hs : sendOk n = true) :
    client_loop llm sendOk (.data chunk :: rest) st n =
      ⟨(client_loop llm sendOk rest st (n + 1)).finalState,
       (client_loop llm sendOk rest st (n + 1)).pipelineCalls,
       shellPrompt st :: (client_loop llm sendOk rest st (n + 1)).sends⟩ := by
  rw [client_loop, if_pos h, if_pos hs]

/-- C8 witness: a whitespace-only chunk followed by a clean close, against a
fresh session with all sends succeeding: the final state is the initial state,
the pipeline is never consulted, and only the prompt is sent. -/
theorem empty_command_resends_prompt_witness :
    client_loop noLLM (fun _ => true) [.data "  \t ", .closed] ⟨"/", [], "ip", "t0"⟩ 2 =
      ⟨⟨"/", [], "ip", "t0"⟩, [],
       ["user@server-dev-01:/$ "]⟩ := by
  rw [empty_command_resends_prompt noLLM (fun _ => true) "  \t " [.closed]
    ⟨"/", [], "ip", "t0"⟩ 2 (by decide) rfl]
  decide

end Honeypot

namespace Honeypot

theorem call_llm_eq (o : Nat → AttemptResult) (m : Nat) :
    call_llm_for_command true o m = llm_loop o 1 m (1 / 2) := by
  unfold call_llm_for_command
  rw [if_neg (by simp)]

/-- C5: the remote responder makes at most `maxAttempts` request attempts;
its backoff delays start at 0.5 and exactly double at each further sleep
(hence each is at least double the previous), and delays only happen between
attempts, never after the last; when every attempt fails (raises, or yields an
empty extracted text, which is silently retried) the function returns a clean
`none` rather than raising; and with a backend that raises twice and succeeds
on the third of `maxAttempts = 3` attempts, the returned text is the third
attempt's text and exactly two delays occur (`0.5` then `1`).  An
empty-extracted-text failure is also retried (third scenario), with no sleep
on that path. -/
theorem llm_retry_backoff_contract :
    (∀ (o : Nat → AttemptResult) (m : Nat),
        (call_llm_for_command true o m).attempts ≤ m) ∧
    (∀ (o : Nat → AttemptResult) (m : Nat),
        doublingFrom (1 / 2) (call_llm_for_command true o m).delays) ∧
    (∀ (o : Nat → AttemptResult) (m : Nat),
        (call_llm_for_command true o m).delays = [] ∨
          (call_llm_for_command true o m).delays.length <
            (call_llm_for_command true o m).attempts) ∧
    (∀ (o : Nat → AttemptResult) (m : Nat), (∀ i, llmFailed (o i)) →
        (call_llm_for_command true o m).result = none) ∧
    (call_llm_for_command true
        (fun n => if 3 ≤ n then .returns "third" else .raises) 3 =
      ⟨some "third\n", [1 / 2, 1], 3⟩) ∧
    (call_llm_for_command true
        (fun n => if 3 ≤ n then .returns "ok" else .returns "") 3 =
      ⟨some "ok\n", [], 3⟩) := by
  refine ⟨?_, ?_, ?_, ?_, ?_, ?_⟩
  · intro o m
    rw [call_llm_eq]
    exact llm_loop_attempts_le o m 1 (1 / 2)
  · intro o m
    rw [call_llm_eq]
    exact llm_loop_doubling o m 1 (1 / 2)
  · intro o m
    rw [call_llm_eq]
    exact llm_loop_delays_bound o m 1 (1 / 2)
  · intro o m hall
    rw [call_llm_eq]
    exact llm_loop_all_failed o hall m 1 (1 / 2)
  · norm_num [call_llm_for_command, llm_loop]
    decide
  · norm_num [call_llm_for_command, llm_loop]
    decide

/-- C5 witness: a backend that always raises, with three attempts: the
contract's failure clause gives a clean `none`, and the attempt bound holds. -/
theorem llm_retry_backoff_contract_witness :
    (call_llm_for_command true (fun _ => .raises) 3).result = none ∧
    (call_llm_for_command true (fun _ => .raises) 3).attempts ≤ 3 :=
  ⟨llm_retry_backoff_contract.2.2.2.1 (fun _ => .raises) 3 (fun _ => trivial),
   llm_retry_backoff_contract.1 (fun _ => .raises) 3⟩

/-- C6 counterexample: a bare `CD` is not handled as a directory change to `/`
the way `cd` is — the bare form is compared case-sensitively (`cmd == "cd"`),
so `CD` falls through every local branch and reaches the command-not-found
fallback. -/
theorem bare_uppercase_cd_cex :
    handle_local_command "CD" ⟨"/home/", [], "ip", "t0"⟩ =
      (none, ⟨"/home/", [], "ip", "t0"⟩) ∧
    handle_local_command "cd" ⟨"/home/", [], "ip", "t0"⟩ =
      (some "", ⟨"/", ["cd"], "ip", "t0"⟩) ∧
    get_command_output noLLM "CD" ⟨"/home/", [], "ip", "t0"⟩ =
      ("bash: CD: command not found\n", ⟨"/home/", [], "ip", "t0"⟩) := by
  decide

/-- C6 amended: the local resolver is case-insensitive on the verb for every
recognized command except the bare `cd` form: `pwd`, `whoami`, `id` and the
`help` forms are recognized in every casing of the trimmed command, and
`uname*`, `ls*`, `cat <target>`, `echo <text>` and `cd <path>` are dispatched
on the lowercased text, each appending the trimmed command to history with its
canned or computed output; but the bare `cd` form is matched case-sensitively,
so a bare `CD` is not handled at all, and the directory value changes only
when `update_state` re-matches the verb — again case-sensitively — so
`CD /home` is recognized and recorded yet leaves the working directory
unchanged, while `cd /home` changes it. -/
theorem verb_case_insensitive_amended :
    (∀ (c : String) (st : SessionState), pyLower (pyStrip c) = "pwd" →
      handle_local_command c st =
        (some (st.current_dir ++ "\n"), appendHist st (pyStrip c))) ∧
    (∀ (c : String) (st : SessionState), pyLower (pyStrip c) = "whoami" →
      handle_local_command c st = (some "user\n", appendHist st (pyStrip c))) ∧
    (∀ (c : String) (st : SessionState), pyLower (pyStrip c) = "id" →
      handle_local_command c st =
        (some "uid=1000(user) gid=1000(user) groups=1000(user)\n",
         appendHist st (pyStrip c))) ∧
    (∀ (c : String) (st : SessionState),
      pyStartsWith (pyLower (pyStrip c)) "cd " = true →
      handle_local_command c st =
        (some "",
         { st with
            current_dir := update_state (pyStrip c) st.current_dir
            command_history := st.command_history ++ [pyStrip c] })) ∧
    (∀ (c : String) (st : SessionState),
      pyStartsWith (pyLower (pyStrip c)) "uname" = true →
      handle_local_command c st =
        (some "Linux server-dev-01 4.19.0-21-amd64 #1 SMP Debian 9 x86_64 GNU/Linux\n",
         appendHist st (pyStrip c))) ∧
    (∀ (c : String) (st : SessionState),
      pyStartsWith (pyLower (pyStrip c)) "ls" = true →
      handle_local_command c st =
        (some
          (if ls_target_norm st.current_dir (pyStrip c) = "/" then rootListing
           else if pyEndsWith (ls_target_norm st.current_dir (pyStrip c)) "home/" = true then
             "user\n"
           else "file.txt\n"),
         appendHist st (pyStrip c))) ∧
    (∀ (c : String) (st : SessionState),
      pyStartsWith (pyLower (pyStrip c)) "cat " = true →
      handle_local_command c st =
        (some
          (if (pySplitMax1 (pyStrip c)).getD 1 "" = "/etc/passwd" ∨
              (pySplitMax1 (pyStrip c)).getD 1 "" = "etc/passwd" then passwdListing
           else if (pySplitMax1 (pyStrip c)).getD 1 "" = "/etc/hostname" ∨
              (pySplitMax1 (pyStrip c)).getD 1 "" = "etc/hostname" then "server-dev-01\n"
           else "cat: " ++ (pySplitMax1 (pyStrip c)).getD 1 "" ++
             ": No such file or directory\n"),
         appendHist st (pyStrip c))) ∧
    (∀ (c : String) (st : SessionState),
      pyStartsWith (pyLower (pyStrip c)) "echo " = true →
      handle_local_command c st =
        (some ((pySplitSpace1 (pyStrip c)).getD 1 "" ++ "\n"),
         appendHist st (pyStrip c))) ∧
    (∀ (c : String) (st : SessionState),
      (pyLower (pyStrip c) = "help" ∨ pyLower (pyStrip c) = "--help" ∨
        pyLower (pyStrip c) = "-h") →
      handle_local_command c st =
        (some "Supported (simulated) commands: cd, pwd, ls, whoami, id, uname, cat, echo\n",
         appendHist st (pyStrip c))) ∧
    handle_local_command "CD /home" ⟨"/", [], "ip", "t0"⟩ =
      (some "", ⟨"/", ["CD /home"], "ip", "t0"⟩) ∧
    handle_local_command "cd /home" ⟨"/", [], "ip", "t0"⟩ =
      (some "", ⟨"/home/", ["cd /home"], "ip", "t0"⟩) ∧
    handle_local_command "CD" ⟨"/", [], "ip", "t0"⟩ =
      (none, ⟨"/", [], "ip", "t0"⟩) := by
  refine ⟨?_, ?_, ?_, ?_, ?_, ?_, ?_, ?_, ?_, by decide, by decide, by decide⟩
  · intro c st h
    have hcd : ¬ (pyStrip c = "cd" ∨ pyStartsWith (pyLower (pyStrip c)) "cd " = true) := by
      rintro (he | he)
      · rw [he, show pyLower "cd" = "cd" from by decide] at h
        exact absurd h (by decide)
      · rw [h] at he
        exact absurd he (by decide)
    unfold handle_local_command
    rw [if_neg hcd, if_pos h]
  · intro c st h
    have hcd : ¬ (pyStrip c = "cd" ∨ pyStartsWith (pyLower (pyStrip c)) "cd " = true) := by
      rintro (he | he)
      · rw [he, show pyLower "cd" = "cd" from by decide] at h
        exact absurd h (by decide)
      · rw [h] at he
        exact absurd he (by decide)
    unfold handle_local_command
    rw [if_neg hcd, if_neg (by rw [h]; decide), if_pos h]
  · intro c st h
    have hcd : ¬ (pyStrip c = "cd" ∨ pyStartsWith (pyLower (pyStrip c)) "cd " = true) := by
      rintro (he | he)
      · rw [he, show pyLower "cd" = "cd" from by decide] at h
        exact absurd h (by decide)
      · rw [h] at he
        exact absurd he (by decide)
    unfold handle_local_command
    rw [if_neg hcd, if_neg (by rw [h]; decide), if_neg (by rw [h]; decide), if_pos h]
  · intro c st h
    unfold handle_local_command
    rw [if_pos (Or.inr h)]
  · intro c st h
    obtain ⟨t, hdata⟩ :
        ∃ t, (pyLower (pyStrip c)).data = 'u' :: 'n' :: 'a' :: 'm' :: 'e' :: t := by
      unfold pyStartsWith at h
      obtain ⟨t, ht⟩ := isPrefixOf_exists h
      exact ⟨t, ht⟩
    have hcd : ¬ (pyStrip c = "cd" ∨ pyStartsWith (pyLower (pyStrip c)) "cd " = true) := by
      rintro (he | he)
      · rw [he, show pyLower "cd" = "cd" from by decide] at hdata
        rw [show ("cd" : String).data = ['c', 'd'] from rfl] at hdata
        simp at hdata
      · rw [pyStartsWith_false_head hdata rfl (by decide)] at he
        simp at he
    have hpwd : ¬ pyLower (pyStrip c) = "pwd" := by
      intro he
      rw [he, show ("pwd" : String).data = ['p', 'w', 'd'] from rfl] at hdata
      simp at hdata
    have hwho : ¬ pyLower (pyStrip c) = "whoami" := by
      intro he
      rw [he,
        show ("whoami" : String).data = ['w', 'h', 'o', 'a', 'm', 'i'] from rfl] at hdata
      simp at hdata
    have hid : ¬ pyLower (pyStrip c) = "id" := by
      intro he
      rw [he, show ("id" : String).data = ['i', 'd'] from rfl] at hdata
      simp at hdata
    unfold handle_local_command
    rw [if_neg hcd, if_neg hpwd, if_neg hwho, if_neg hid, if_pos h]
  · intro c st h
    obtain ⟨t, hdata⟩ : ∃ t, (pyLower (pyStrip c)).data = 'l' :: 's' :: t := by
      unfold pyStartsWith at h
      obtain ⟨t, ht⟩ := isPrefixOf_exists h
      exact ⟨t, ht⟩
    have hcd : ¬ (pyStrip c = "cd" ∨ pyStartsWith (pyLower (pyStrip c)) "cd " = true) := by
      rintro (he | he)
      · rw [he, show pyLower "cd" = "cd" from by decide] at hdata
        rw [show ("cd" : String).data = ['c', 'd'] from rfl] at hdata
        simp at hdata
      · rw [pyStartsWith_false_head hdata rfl (by decide)] at he
        simp at he
    have hpwd : ¬ pyLower (pyStrip c) = "pwd" := by
      intro he
      rw [he, show ("pwd" : String).data = ['p', 'w', 'd'] from rfl] at hdata
      simp at hdata
    have hwho : ¬ pyLower (pyStrip c) = "whoami" := by
      intro he
      rw [he,
        show ("whoami" : String).data = ['w', 'h', 'o', 'a', 'm', 'i'] from rfl] at hdata
      simp at hdata
    have hid : ¬ pyLower (pyStrip c) = "id" := by
      intro he
      rw [he, show ("id" : String).data = ['i', 'd'] from rfl] at hdata
      simp at hdata
    have hun : ¬ pyStartsWith (pyLower (pyStrip c)) "uname" = true := by
      rw [pyStartsWith_false_head hdata rfl (by decide)]
      decide
    unfold handle_local_command
    rw [if_neg hcd, if_neg hpwd, if_neg hwho, if_neg hid, if_neg hun, if_pos h]
    all_goals rfl
  · intro c st h
    obtain ⟨t, hdata⟩ :
        ∃ t, (pyLower (pyStrip c)).data = 'c' :: 'a' :: 't' :: ' ' :: t := by
      unfold pyStartsWith at h
      obtain ⟨t, ht⟩ := isPrefixOf_exists h
      exact ⟨t, ht⟩
    have hcd : ¬ (pyStrip c = "cd" ∨ pyStartsWith (pyLower (pyStrip c)) "cd " = true) := by
      rintro (he | he)
      · rw [he, show pyLower "cd" = "cd" from by decide] at hdata
        rw [show ("cd" : String).data = ['c', 'd'] from rfl] at hdata
        simp at hdata
      · rw [pyStartsWith_false_second hdata rfl (by decide)] at he
        simp at he
    have hpwd : ¬ pyLower (pyStrip c) = "pwd" := by
      intro he
      rw [he, show ("pwd" : String).data = ['p', 'w', 'd'] from rfl] at hdata
      simp at hdata
    have hwho : ¬ pyLower (pyStrip c) = "whoami" := by
      intro he
      rw [he,
        show ("whoami" : String).data = ['w', 'h', 'o', 'a', 'm', 'i'] from rfl] at hdata
      simp at hdata
    have hid : ¬ pyLower (pyStrip c) = "id" := by
      intro he
      rw [he, show ("id" : String).data = ['i', 'd'] from rfl] at hdata
      simp at hdata
    have hun : ¬ pyStartsWith (pyLower (pyStrip c)) "uname" = true := by
      rw [pyStartsWith_false_head hdata rfl (by decide)]
      decide
    have hls : ¬ pyStartsWith (pyLower (pyStrip c)) "ls" = true := by
      rw [pyStartsWith_false_head hdata rfl (by decide)]
      decide
    unfold handle_local_command
    rw [if_neg hcd, if_neg hpwd, if_neg hwho, if_neg hid, if_neg hun, if_neg hls,
      if_pos h]
  · intro c st h
    obtain ⟨t, hdata⟩ :
        ∃ t, (pyLower (pyStrip c)).data = 'e' :: 'c' :: 'h' :: 'o' :: ' ' :: t := by
      unfold pyStartsWith at h
      obtain ⟨t, ht⟩ := isPrefixOf_exists h
      exact ⟨t, ht⟩
    have hcd : ¬ (pyStrip c = "cd" ∨ pyStartsWith (pyLower (pyStrip c)) "cd " = true) := by
      rintro (he | he)
      · rw [he, show pyLower "cd" = "cd" from by decide] at hdata
        rw [show ("cd" : String).data = ['c', 'd'] from rfl] at hdata
        simp at hdata
      · rw [pyStartsWith_false_head hdata rfl (by decide)] at he
        simp at he
    have hpwd : ¬ pyLower (pyStrip c) = "pwd" := by
      intro he
      rw [he, show ("pwd" : String).data = ['p', 'w', 'd'] from rfl] at hdata
      simp at hdata
    have hwho : ¬ pyLower (pyStrip c) = "whoami" := by
      intro he
      rw [he,
        show ("whoami" : String).data = ['w', 'h', 'o', 'a', 'm', 'i'] from rfl] at hdata
      simp at hdata
    have hid : ¬ pyLower (pyStrip c) = "id" := by
      intro he
      rw [he, show ("id" : String).data = ['i', 'd'] from rfl] at hdata
      simp at hdata
    have hun : ¬ pyStartsWith (pyLower (pyStrip c)) "uname" = true := by
      rw [pyStartsWith_false_head hdata rfl (by decide)]
      decide
    have hls : ¬ pyStartsWith (pyLower (pyStrip c)) "ls" = true := by
      rw [pyStartsWith_false_head hdata rfl (by decide)]
      decide
    have hcat : ¬ pyStartsWith (pyLower (pyStrip c)) "cat " = true := by
      rw [pyStartsWith_false_head hdata rfl (by decide)]
      decide
    unfold handle_local_command
    rw [if_neg hcd, if_neg hpwd, if_neg hwho, if_neg hid, if_neg hun, if_neg hls,
      if_neg hcat, if_pos h]
  · intro c st h
    have hcd : ¬ (pyStrip c = "cd" ∨ pyStartsWith (pyLower (pyStrip c)) "cd " = true) := by
      rintro (he | he)
      · rw [he, show pyLower "cd" = "cd" from by decide] at h
        rcases h with h | h | h <;> exact absurd h (by decide)
      · rcases h with h | h | h <;> rw [h] at he <;> exact absurd he (by decide)
    rcases h with h | h | h
    · unfold handle_local_command
      rw [if_neg hcd, if_neg (by rw [h]; decide), if_neg (by rw [h]; decide),
        if_neg (by rw [h]; decide), if_neg (by rw [h]; decide), if_neg (by rw [h]; decide),
        if_neg (by rw [h]; decide), if_neg (by rw [h]; decide), if_pos (Or.inl h)]
    · unfold handle_local_command
      rw [if_neg hcd, if_neg (by rw [h]; decide), if_neg (by rw [h]; decide),
        if_neg (by rw [h]; decide), if_neg (by rw [h]; decide), if_neg (by rw [h]; decide),
        if_neg (by rw [h]; decide), if_neg (by rw [h]; decide), if_pos (Or.inr (Or.inl h))]
    · unfold handle_local_command
      rw [if_neg hcd, if_neg (by rw [h]; decide), if_neg (by rw [h]; decide),
        if_neg (by rw [h]; decide), if_neg (by rw [h]; decide), if_neg (by rw [h]; decide),
        if_neg (by rw [h]; decide), if_neg (by rw [h]; decide), if_pos (Or.inr (Or.inr h))]

/-- C6 witness: the amended theorem's `pwd` clause at the uppercase command
`PWD` against a session sitting in `/home/`. -/
theorem verb_case_insensitive_amended_witness :
    handle_local_command "PWD" ⟨"/home/", [], "ip", "t0"⟩ =
      (some ("/home/" ++ "\n"),
       appendHist ⟨"/home/", [], "ip", "t0"⟩ (pyStrip "PWD")) :=
  verb_case_insensitive_amended.1 "PWD" ⟨"/home/", [], "ip", "t0"⟩ (by decide)

end Honeypot

namespace Honeypot

/-- C9: every command whose lowercased, trimmed text begins with the two
characters `ls` — including `lsblk` or `lsof` — is handled locally by the
`ls` branch: the trimmed command is appended to the history (the rest of the
state untouched), the output is one of the three canned listings, and for
every backend the pipeline returns the local result, so the command never
reaches the remote responder or the command-not-found fallback. -/
theorem ls_matched_by_text_start (cmd : String) (st : SessionState)
    (h : pyStartsWith (pyLower (pyStrip cmd)) "ls" = true) :
    ((handle_local_command cmd st).1 = some rootListing ∨
     (handle_local_command cmd st).1 = some "user\n" ∨
     (handle_local_command cmd st).1 = some "file.txt\n") ∧
    (handle_local_command cmd st).2 = appendHist st (pyStrip cmd) ∧
    ∀ llm, get_command_output llm cmd st =
      ((handle_local_command cmd st).1.getD "", (handle_local_command cmd st).2) := by
  obtain ⟨t, hdata⟩ : ∃ t, (pyLower (pyStrip cmd)).data = 'l' :: 's' :: t := by
    unfold pyStartsWith at h
    obtain ⟨t, ht⟩ := isPrefixOf_exists h
    exact ⟨t, ht⟩
  have hcd : ¬ (pyStrip cmd = "cd" ∨ pyStartsWith (pyLower (pyStrip cmd)) "cd " = true) := by
    rintro (he | he)
    · rw [he, show pyLower "cd" = "cd" from by decide] at hdata
      rw [show ("cd" : String).data = ['c', 'd'] from rfl] at hdata
      simp at hdata
    · rw [pyStartsWith_false_head hdata rfl (by decide)] at he
      simp at he
  have hpwd : ¬ pyLower (pyStrip cmd) = "pwd" := by
    intro he
    rw [he, show ("pwd" : String).data = ['p', 'w', 'd'] from rfl] at hdata
    simp at hdata
  have hwho : ¬ pyLower (pyStrip cmd) = "whoami" := by
    intro he
    rw [he, show ("whoami" : String).data = ['w', 'h', 'o', 'a', 'm', 'i'] from rfl] at hdata
    simp at hdata
  have hid : ¬ pyLower (pyStrip cmd) = "id" := by
    intro he
    rw [he, show ("id" : String).data = ['i', 'd'] from rfl] at hdata
    simp at hdata
  have hun : ¬ pyStartsWith (pyLower (pyStrip cmd)) "uname" = true := by
    rw [pyStartsWith_false_head hdata rfl (by decide)]
    decide
  have hmain : handle_local_command cmd st =
      (some
        (if ls_target_norm st.current_dir (pyStrip cmd) = "/" then rootListing
         else if pyEndsWith (ls_target_norm st.current_dir (pyStrip cmd)) "home/" = true then
           "user\n"
         else "file.txt\n"),
       appendHist st (pyStrip cmd)) := by
    unfold handle_local_command
    rw [if_neg hcd, if_neg hpwd, if_neg hwho, if_neg hid, if_neg hun, if_pos h]
    all_goals rfl
  refine ⟨?_, by rw [hmain], ?_⟩
  · rw [hmain]
    dsimp only
    split_ifs <;> simp
  · intro llm
    unfold get_command_output
    rw [hmain]
    all_goals rfl

/-- C9 witness: the command `lsblk`, which the real shell would treat as a
different program, is handled as `ls`: it is appended to history and produces
the canned root listing through the pipeline with no backend consulted. -/
theorem ls_matched_by_text_start_witness :
    ((handle_local_command "lsblk" ⟨"/", [], "ip", "t0"⟩).1 = some rootListing ∨
     (handle_local_command "lsblk" ⟨"/", [], "ip", "t0"⟩).1 = some "user\n" ∨
     (handle_local_command "lsblk" ⟨"/", [], "ip", "t0"⟩).1 = some "file.txt\n") ∧
    (handle_local_command "lsblk" ⟨"/", [], "ip", "t0"⟩).2 =
      appendHist ⟨"/", [], "ip", "t0"⟩ (pyStrip "lsblk") ∧
    ∀ llm, get_command_output llm "lsblk" ⟨"/", [], "ip", "t0"⟩ =
      ((handle_local_command "lsblk" ⟨"/", [], "ip", "t0"⟩).1.getD "",
       (handle_local_command "lsblk" ⟨"/", [], "ip", "t0"⟩).2) :=
  ls_matched_by_text_start "lsblk" ⟨"/", [], "ip", "t0"⟩ (by decide)

/-- C10: the `cat` handler matches its target literally and not relative to
the working directory: for every session state, a command whose lowercased,
trimmed text begins with `cat ` is appended to the history, and its output is
the canned contents exactly when the literal target string is one of
`/etc/passwd`, `etc/passwd`, `/etc/hostname`, `etc/hostname`, and the
no-such-file message otherwise — in particular `cat passwd` with working
directory `/etc/` yields the no-such-file message. -/
theorem cat_matches_target_literally (cmd : String) (st : SessionState)
    (h : pyStartsWith (pyLower (pyStrip cmd)) "cat " = true) :
    handle_local_command cmd st =
      (some
        (if (pySplitMax1 (pyStrip cmd)).getD 1 "" = "/etc/passwd" ∨
            (pySplitMax1 (pyStrip cmd)).getD 1 "" = "etc/passwd" then passwdListing
         else if (pySplitMax1 (pyStrip cmd)).getD 1 "" = "/etc/hostname" ∨
            (pySplitMax1 (pyStrip cmd)).getD 1 "" = "etc/hostname" then "server-dev-01\n"
         else "cat: " ++ (pySplitMax1 (pyStrip cmd)).getD 1 "" ++
           ": No such file or directory\n"),
       appendHist st (pyStrip cmd)) ∧
    handle_local_command "cat passwd" ⟨"/etc/", [], "ip", "t0"⟩ =
      (some "cat: passwd: No such file or directory\n",
       ⟨"/etc/", ["cat passwd"], "ip", "t0"⟩) := by
  constructor
  · obtain ⟨t, hdata⟩ :
        ∃ t, (pyLower (pyStrip cmd)).data = 'c' :: 'a' :: 't' :: ' ' :: t := by
      unfold pyStartsWith at h
      obtain ⟨t, ht⟩ := isPrefixOf_exists h
      exact ⟨t, ht⟩
    have hcd : ¬ (pyStrip cmd = "cd" ∨
        pyStartsWith (pyLower (pyStrip cmd)) "cd " = true) := by
      rintro (he | he)
      · rw [he, show pyLower "cd" = "cd" from by decide] at hdata
        rw [show ("cd" : String).data = ['c', 'd'] from rfl] at hdata
        simp at hdata
      · rw [pyStartsWith_false_second hdata rfl (by decide)] at he
        simp at he
    have hpwd : ¬ pyLower (pyStrip cmd) = "pwd" := by
      intro he
      rw [he, show ("pwd" : String).data = ['p', 'w', 'd'] from rfl] at hdata
      simp at hdata
    have hwho : ¬ pyLower (pyStrip cmd) = "whoami" := by
      intro he
      rw [he,
        show ("whoami" : String).data = ['w', 'h', 'o', 'a', 'm', 'i'] from rfl] at hdata
      simp at hdata
    have hid : ¬ pyLower (pyStrip cmd) = "id" := by
      intro he
      rw [he, show ("id" : String).data = ['i', 'd'] from rfl] at hdata
      simp at hdata
    have hun : ¬ pyStartsWith (pyLower (pyStrip cmd)) "uname" = true := by
      rw [pyStartsWith_false_head hdata rfl (by decide)]
      decide
    have hls : ¬ pyStartsWith (pyLower (pyStrip cmd)) "ls" = true := by
      rw [pyStartsWith_false_head hdata rfl (by decide)]
      decide
    unfold handle_local_command
    rw [if_neg hcd, if_neg hpwd, if_neg hwho, if_neg hid, if_neg hun, if_neg hls,
      if_pos h]
  · decide

/-- C10 witness: the theorem instantiated at `cat /etc/passwd`, whose literal
target matches the first known file. -/
theorem cat_matches_target_literally_witness :
    handle_local_command "cat /etc/passwd" ⟨"/", [], "ip", "t0"⟩ =
      (some
        (if (pySplitMax1 (pyStrip "cat /etc/passwd")).getD 1 "" = "/etc/passwd" ∨
            (pySplitMax1 (pyStrip "cat /etc/passwd")).getD 1 "" = "etc/passwd" then
          passwdListing
         else if (pySplitMax1 (pyStrip "cat /etc/passwd")).getD 1 "" = "/etc/hostname" ∨
            (pySplitMax1 (pyStrip "cat /etc/passwd")).getD 1 "" = "etc/hostname" then
          "server-dev-01\n"
         else "cat: " ++ (pySplitMax1 (pyStrip "cat /etc/passwd")).getD 1 "" ++
           ": No such file or directory\n"),
       appendHist ⟨"/", [], "ip", "t0"⟩ (pyStrip "cat /etc/passwd")) :=
  (cat_matches_target_literally "cat /etc/passwd" ⟨"/", [], "ip", "t0"⟩ (by decide)).1

end Honeypot
